import Mathlib

/-!
Verification of the burp_exporter protocol core.

The definitions below are a shallow embedding of `src/burp_exporter/client.py`
(class `Client`): the frame codec (`write_command` / `handle_data`), the
receive step (`read`), the refresh trigger (`refresh`), the handshake
(`connect`) and the snapshot reconciler (`parse_message`), together with the
per-client parts of the metrics collector (`collect`).  Byte strings are
modelled as `List Char` (all traffic of interest is ASCII), socket effects as
explicit state, and Python exceptions as `Except` errors.
-/

deriving instance DecidableEq for Except

namespace Burp

/- ### Hex formatting and parsing, as used by `'%04X' % n` and `int(s, 16)` -/

/-- Uppercase hex digit character, as produced by Python's `'%X'` format. -/
def hexDigitChar (n : Nat) : Char :=
  if n < 10 then Char.ofNat (48 + n) else Char.ofNat (55 + n)

/-- Hex digits of `n` without leading zeros, most significant first (`'%X' % n`).
The fuel argument only bounds the recursion; `fuel > n` always suffices. -/
def natToHexAux : Nat → Nat → List Char
  | 0, _ => []
  | fuel + 1, n =>
    if n < 16 then [hexDigitChar n]
    else natToHexAux fuel (n / 16) ++ [hexDigitChar (n % 16)]

def natToHex (n : Nat) : List Char := natToHexAux (n + 1) n

/-- `'%04X' % n`: the hex digits of `n`, zero-padded on the left to a minimum
width of 4 (wider if `n` needs more than four digits). -/
def hex4 (n : Nat) : List Char :=
  List.replicate (4 - (natToHex n).length) '0' ++ natToHex n

/-- Value of a single hex digit character. -/
def hexVal (c : Char) : Option Nat :=
  if '0' ≤ c ∧ c ≤ '9' then some (c.toNat - 48)
  else if 'A' ≤ c ∧ c ≤ 'F' then some (c.toNat - 55)
  else if 'a' ≤ c ∧ c ≤ 'f' then some (c.toNat - 87)
  else none

def parseHexGo (acc : Nat) : List Char → Option Nat
  | [] => some acc
  | c :: cs =>
    match hexVal c with
    | some v => parseHexGo (acc * 16 + v) cs
    | none => none

/-- `int(s, 16)` on a plain run of hex digits: fails on the empty string or on
a non-hex-digit character.  (Python additionally strips whitespace and accepts
an optional sign or `0x` marker; no length field in this protocol carries
those, so they are not modelled.) -/
def parseHex (ds : List Char) : Option Nat :=
  if ds = [] then none else parseHexGo 0 ds

/- ### Frame codec: `Client.write_command` and `Client.handle_data` -/

/-- One decoded wire frame: the type byte and the payload slice
`buf[5:mlen+5]` exactly as `handle_data` extracts it. -/
structure Frame where
  mtype : Char
  payload : List Char
deriving DecidableEq

/-- The exceptions `handle_data` can raise. -/
inductive CodecErr where
  /-- `buf[0]` on an empty buffer (IndexError). -/
  | indexError
  /-- `IOError: Unexpected code ...` -/
  | unexpectedCode
  /-- `Exception: Message too short` -/
  | tooShort
  /-- `Exception: Invalid length in message` -/
  | invalidLength
  /-- `Exception: Expected ... payload length, but got ...` -/
  | badLength
deriving DecidableEq

/-- The 6-byte sentinel `c0001\n` sent by the server after pretty-printing is
disabled. -/
def sentinel : List Char := ['c', '0', '0', '0', '1', '\n']

/-- `Client.handle_data`, the frame decoding stage (client.py lines 317-360).
The buffer must be exactly the sentinel (consumed as zero frames) or exactly
one complete frame, whose payload `buf[5:mlen+5]` is then dispatched
(`'c'` frames to `parse_message` via `json.loads`, `'w'` frames to the log);
the dispatch itself is modelled separately by `parse_message`.  The source's
`while True` loop never reassigns `buf`, and after the `dlen == mlen + 5`
check the loop variable `data = buf[mlen+5:-1]` is always empty, so the loop
body runs exactly once; the decoded frames of one call are returned here as a
list. -/
def handle_data (buf : List Char) : Except CodecErr (List Frame) :=
  match buf with
  | [] => .error .indexError
  | b0 :: _ =>
    if b0 ≠ 'c' ∧ b0 ≠ 'w' then .error .unexpectedCode
    else if buf.length = 6 ∧ buf = sentinel then .ok []
    else if buf.length < 5 then .error .tooShort
    else
      match parseHex ((buf.drop 1).take 4) with
      | none => .error .invalidLength
      | some mlen =>
        if buf.length ≠ mlen + 5 then .error .badLength
        else .ok [⟨b0, (buf.drop 5).take mlen⟩]

/-- The exceptions `write_command` can raise. -/
inductive WriteErr where
  /-- `IOError('No socket')` -/
  | noSocket
  /-- `IOError('Command must be a single character')` for `len(cmd) > 1`. -/
  | longCmd
  /-- `'%c' % cmd` raises TypeError for the empty command string, which the
  `len(cmd) > 1` guard does not catch. -/
  | typeError
deriving DecidableEq

/-- The wire string `'%c%04X%s\0' % (cmd, len(data) + 1, data)`. -/
def wireFrame (cmd : Char) (data : List Char) : List Char :=
  cmd :: hex4 (data.length + 1) ++ data ++ ['\x00']

/-- `Client.write_command` (client.py lines 190-203).  There is no check of
the payload size anywhere; the only guards are the socket presence and
`len(cmd) > 1`, plus the implicit failure of `'%c'` on a non-single-character
argument. -/
def write_command (hasSocket : Bool) (cmd : List Char) (data : List Char) :
    Except WriteErr (List Char) :=
  if !hasSocket then .error .noSocket
  else if cmd.length > 1 then .error .longCmd
  else
    match cmd with
    | [c] => .ok (wireFrame c data)
    | _ => .error .typeError

/- ### Receive step: `Client.read` and `Client.teardown_socket` -/

/-- The mutable per-connection state touched by `read`/`handle_data`. -/
structure ClientState where
  buf : List Char
  connected : Bool
  inFlight : Bool
deriving DecidableEq

/-- `Client.teardown_socket` effect on the modelled state. -/
def teardown_socket (s : ClientState) : ClientState :=
  { s with connected := false, inFlight := false, buf := [] }

/-- `Client.read` (client.py lines 205-225) given the bytes `recData` the
socket returned for a `read(bufsize)` call.  A zero-length read tears the
socket down; otherwise the bytes are appended to `_buf`, and only a short read
(`reclen < bufsize`) triggers `handle_data` followed by clearing `_in_flight`.
When `handle_data` raises, the exception propagates and the state keeps the
mutations already performed: the buffer still holds the accumulated bytes and
`_in_flight` is not cleared. -/
def clientRead (s : ClientState) (recData : List Char) (bufsize : Nat) :
    ClientState × Except CodecErr (List Frame) :=
  if recData.length = 0 then (teardown_socket s, .ok [])
  else
    if recData.length < bufsize then
      match handle_data (s.buf ++ recData) with
      | .ok frames => ({ s with buf := [], inFlight := false }, .ok frames)
      | .error e => ({ s with buf := s.buf ++ recData }, .error e)
    else ({ s with buf := s.buf ++ recData }, .ok [])

/- ### Refresh trigger: `Client.refresh` -/

/-- The state read and written by `Client.refresh`; timestamps are modelled as
integers, `tsLastQuery` standing for `_ts_last_query`. -/
structure RefreshState where
  connected : Bool
  inFlight : Bool
  tsLastQuery : Int
deriving DecidableEq

/-- `Client.refresh` (client.py lines 73-82) at current time `now` with the
configured `refresh_interval_seconds`.  Returns the new state and the list of
`write_command` calls performed.  The source never assigns `_in_flight = True`
anywhere in the repository; the flag is only initialised to `False` and
cleared in `teardown_socket` and `read`. -/
def refresh (s : RefreshState) (now interval : Int) :
    RefreshState × List (String × String) :=
  if s.connected ∧ s.tsLastQuery < now - interval then
    if s.inFlight then (s, [])
    else ({ s with tsLastQuery := now }, [("c", "c:")])
  else (s, [])

/- ### Handshake: `Client.connect` -/

/-- Substring containment, Python's `needle in hay` on strings. -/
def strContains (hay needle : String) : Bool :=
  decide (needle.toList <:+: hay.toList)

/-- Python's `s.startswith(p)`. -/
def pyStarts (s p : String) : Bool :=
  p.toList.isPrefixOf s.toList

/-- One `raw_read()` against a scripted server: the next scripted reply, or
the empty string once the script is exhausted (a timeout makes `raw_read`
return the decode of `b''`). -/
def takeReply : List String → String × List String
  | [] => ("", [])
  | r :: rs => (r, rs)

/-- The exceptions (`IOError`) `connect` can raise, in source order. -/
inductive HsErr where
  | noSocket
  | alreadyConnected
  /-- `Did not receive whoareyou` -/
  | noWhoareyou
  /-- `Unexpected data: ...` -/
  | unexpectedData
  /-- `No data after sending password` -/
  | noPasswordData
  /-- `No ok after sending password` -/
  | noOkAfterPassword
  /-- `Didn't receive "nocsr ok"` -/
  | noNocsrOk
  /-- `Error after requesting extra_comms` -/
  | extraCommsBeginErr
  /-- `Error signaling end of extra comms: ...` -/
  | extraCommsEndErr
deriving DecidableEq

/-- Result of a successful handshake: the `write_command('c', data)` calls in
order, the `_connected` flag, and the scripted replies left unread. -/
structure HsOutcome where
  sent : List (String × String)
  connected : Bool
  leftover : List String
deriving DecidableEq

/-- `Client.connect` (client.py lines 253-315) against a scripted list of
`raw_read()` results.  Writes performed before a failing check are not
reported on the error path (the socket side effects are outside the model). -/
def connect (hasSocket connected : Bool) (version cname password : String)
    (replies : List String) : Except HsErr HsOutcome :=
  if !hasSocket then .error .noSocket
  else if connected then .error .alreadyConnected
  else
    -- write_command('c', f'hello:{version}')
    let (d1, r1) := takeReply replies
    if ¬(d1 ≠ "" ∧ strContains d1 "whoareyou") then .error .noWhoareyou
    else
      -- (a ':' in the reply only records the server version, not modelled)
      -- write_command('c', cname)
      let (d2, r2) := takeReply r1
      if d2 = "" ∨ ¬ strContains d2 "okpassword" then .error .unexpectedData
      else
        -- write_command('c', password)
        let (d3, r3) := takeReply r2
        if d3 = "" then .error .noPasswordData
        else
          -- a 'w'-typed reply is logged and one further read is performed
          let (d4, r4) := if pyStarts d3 "w" then takeReply r3 else (d3, r3)
          if d4 = "" ∨ ¬ strContains d4 "ok" then .error .noOkAfterPassword
          else
            -- write_command('c', 'nocsr')
            let (d5, r5) := takeReply r4
            if d5 = "" ∨ ¬ strContains d5 "nocsr ok" then .error .noNocsrOk
            else
              -- write_command('c', 'extra_comms_begin')
              let (d6, r6) := takeReply r5
              if d6 = "" ∨ ¬ strContains d6 "extra_comms_begin ok" then
                .error .extraCommsBeginErr
              else
                let acks :=
                  (if strContains d6 ":counters_json:" then
                    [("c", "counters_json ok")] else []) ++
                  (if strContains d6 ":uname:" then
                    [("c", "uname=Linux")] else []) ++
                  (if strContains d6 ":msg:" then [("c", "msg")] else [])
                -- write_command('c', 'extra_comms_end')
                let (d7, r7) := takeReply r6
                if d7 = "" ∨ ¬ strContains d7 "extra_comms_end ok" then
                  .error .extraCommsEndErr
                else
                  -- write_command('c', 'j:pretty-print-off') and two
                  -- unconditional discarding reads
                  let (_, r8) := takeReply r7
                  let (_, r9) := takeReply r8
                  .ok ⟨[("c", "hello:" ++ version), ("c", cname), ("c", password),
                        ("c", "nocsr"), ("c", "extra_comms_begin")] ++ acks ++
                        [("c", "extra_comms_end"), ("c", "j:pretty-print-off")],
                       true, r9⟩

/- ### Snapshot records and validation: `types.py` and `pydantic` -/

/-- `BackupInfo` from types.py. -/
structure BackupInfo where
  number : Int
  timestamp : Int
  flags : List String
  logs : Option (List (String × List String))
deriving DecidableEq

/-- `ClientInfo` from types.py.  Its Python `__eq__` compares only `name`
(also against plain strings); membership tests in the source are therefore
modelled by explicit name comparisons, not by this structure's equality. -/
structure ClientInfo where
  name : String
  labels : Option (List String)
  run_status : String
  protocol : Int
  backups : List BackupInfo
deriving DecidableEq

/-- JSON values as decoded by `json.loads`. -/
inductive Json where
  | null
  | boolVal (b : Bool)
  | num (n : Int)
  | str (s : String)
  | arr (elems : List Json)
  | obj (fields : List (String × Json))

def Json.lookup (j : Json) (key : String) : Option Json :=
  match j with
  | .obj fields => fields.lookup key
  | _ => none

/-- Python's `int(s)` on a string: an optional sign followed by decimal
digits.  (CPython additionally strips whitespace and allows underscores
between digits; no entry here carries those.) -/
def digitsVal (ds : List Char) : Option Nat :=
  match ds with
  | [] => none
  | _ =>
    if ds.all (fun c => decide ('0' ≤ c ∧ c ≤ '9')) then
      some (ds.foldl (fun a c => a * 10 + (c.toNat - 48)) 0)
    else none

def pyIntOfString (s : String) : Option Int :=
  match s.toList with
  | '-' :: ds => (digitsVal ds).map (fun n => -(n : Int))
  | '+' :: ds => (digitsVal ds).map (fun n => (n : Int))
  | ds => (digitsVal ds).map (fun n => (n : Int))

/-- pydantic v1's lax `str` field validator: a string is taken as is, and a
number or bool (a bool is an `int` in Python) is coerced via `str(v)`; `None`,
lists and dicts are `StrError`s. -/
def asStr : Json → Option String
  | .str s => some s
  | .num n => some (toString n)
  | .boolVal b => some (if b then "True" else "False")
  | _ => none

/-- pydantic v1's lax `int` field validator: an int is taken as is, a bool
becomes `int(v)` (1 or 0), a string is parsed with `int(v)`; `None`, lists
and dicts raise `IntegerError`. -/
def asInt : Json → Option Int
  | .num n => some n
  | .boolVal b => some (if b then 1 else 0)
  | .str s => pyIntOfString s
  | _ => none

/-- pydantic v1's `List[str]` validator: the value must be a sequence (a JSON
array here — v1 explicitly refuses to treat a plain string as a sequence),
and each item goes through the lax `str` coercion. -/
def asStrList : Json → Option (List String)
  | .arr xs => xs.mapM asStr
  | _ => none

def asLogs : Json → Option (List (String × List String))
  | .obj fields => fields.mapM (fun kv => (asStrList kv.2).map (fun v => (kv.1, v)))
  | _ => none

def reqField (j : Json) (key : String) (f : Json → Option α) : Option α :=
  (j.lookup key).bind f

/-- An `Optional[...]` pydantic field: missing or `null` is `None`. -/
def optField (j : Json) (key : String) (f : Json → Option α) : Option (Option α) :=
  match j.lookup key with
  | none => some none
  | some .null => some none
  | some v => (f v).map some

/-- How `ClientInfo(**entry)` fails. -/
inductive VErr where
  /-- `**entry` on a non-mapping raises TypeError, which `parse_message` does
  not catch. -/
  | typeError
  /-- pydantic `ValidationError`, caught by `parse_message`. -/
  | validationError
deriving DecidableEq

/-- `BackupInfo` validation for one element of the `backups` list: a
non-object element is a pydantic `ValidationError`; an object's fields use
the lax coercions of `asInt`/`asStrList`/`asLogs`. -/
def mkBackupInfo (j : Json) : Option BackupInfo :=
  match j with
  | .obj _ => do
    let number ← reqField j "number" asInt
    let timestamp ← reqField j "timestamp" asInt
    let flags ← reqField j "flags" asStrList
    let logs ← optField j "logs" asLogs
    some ⟨number, timestamp, flags, logs⟩
  | _ => none

/-- `ClientInfo(**entry)`: a non-object raises TypeError before pydantic runs;
an object is validated field by field with pydantic v1's lax coercions as
modelled by `asStr`/`asInt`/`asStrList` (numbers and bools coerce into `str`
fields, bools and integer-literal strings into `int` fields).  A missing
required field, a `None` in a non-Optional field, or an uncoercible value is
a `ValidationError`, as is a non-object element of the `backups` list. -/
def mkClientInfo (j : Json) : Except VErr ClientInfo :=
  match j with
  | .obj _ =>
    match (do
      let name ← reqField j "name" asStr
      let labels ← optField j "labels" asStrList
      let rstatus ← reqField j "run_status" asStr
      let protocol ← reqField j "protocol" asInt
      let backups ← reqField j "backups" (fun v =>
        match v with
        | .arr xs => xs.mapM mkBackupInfo
        | _ => none)
      some (ClientInfo.mk name labels rstatus protocol backups) : Option ClientInfo) with
    | some info => .ok info
    | none => .error .validationError
  | _ => .error .typeError

/- ### Reconciler: `Client.parse_message` -/

/-- Python's `info.name not in self._clients`: membership in the list of
records via `ClientInfo.__eq__`, i.e. a name comparison. -/
def containsName (cur : List ClientInfo) (n : String) : Bool :=
  cur.any (fun cl => cl.name == n)

/-- `[info if cl.name == info.name else cl for cl in self._clients]`. -/
def replaceByName (cur : List ClientInfo) (info : ClientInfo) : List ClientInfo :=
  cur.map (fun cl => if cl.name = info.name then info else cl)

/-- The uncaught exceptions `parse_message` can raise. -/
inductive ParseErr where
  /-- TypeError from `ClientInfo(**entry)` on a non-mapping entry. -/
  | typeError
  /-- `Exception('Unknown data')` when the message has no `clients` key. -/
  | unknownData
deriving DecidableEq

/-- The `for client in message['clients']` loop: threads the record list, the
per-call set of valid names (a list without duplicates) and the running
`_parse_errors` counter. -/
def processEntries : List ClientInfo → List String → Nat → List Json →
    Except ParseErr (List ClientInfo × List String × Nat)
  | cur, names, errs, [] => .ok (cur, names, errs)
  | cur, names, errs, e :: rest =>
    match mkClientInfo e with
    | .error .typeError => .error .typeError
    | .error .validationError => processEntries cur names (errs + 1) rest
    | .ok info =>
      processEntries
        (if containsName cur info.name then replaceByName cur info
         else cur ++ [info])
        (if info.name ∈ names then names else names ++ [info.name])
        errs rest

/-- `Client.parse_message` (client.py lines 362-394) on the current record
list and `_parse_errors` counter, returning their new values.  A message
without a `clients` key raises `Exception('Unknown data')`.  The `clients`
value is required to be an array here: Python would iterate any iterable, but
a non-list value leads to an uncaught exception on the first element in every
case the claims exercise. -/
def parse_message (cur : List ClientInfo) (errs : Nat) (msg : Json) :
    Except ParseErr (List ClientInfo × Nat) :=
  match msg.lookup "clients" with
  | some (.arr entries) =>
    match processEntries cur [] errs entries with
    | .ok (cur1, names, errs1) =>
      .ok (cur1.filter (fun x => names.contains x.name), errs1)
    | .error e => .error e
  | some _ => .error .typeError
  | none => .error .unknownData

/-- The names dropped between two states of the table: present before a
`parse_message` call and absent after it (the removal set of the spec). -/
def removedBetween (oldTable newTable : List ClientInfo) : List String :=
  (oldTable.map ClientInfo.name).filter
    (fun n => !((newTable.map ClientInfo.name).contains n))

/- ### Metrics collection: the per-client part of `Client.collect` -/

/-- Default group-label value (client.py line 16). -/
def LABEL_DEFAULT : String := "--unknown--"

/-- `l.split('=', 1)[1]`: the text after the first `'='` of `l` (the callers
guarantee an `'='` is present). -/
def afterFirstEq (l : String) : String :=
  String.mk ((l.toList.dropWhile (fun c => c ≠ '=')).drop 1)

/-- The label-scanning loop of `Client.collect` (client.py lines 115-122):
the first label starting with `group + '='` wins, else `LABEL_DEFAULT`. -/
def labelLval (group : String) : List String → List String
  | [] => [LABEL_DEFAULT]
  | l :: rest =>
    if pyStarts l (group ++ "=") then [afterFirstEq l] else labelLval group rest

/-- The whole group-label block of `collect` for one client record: skipped
when no group label is configured or it is the empty string (Python
truthiness); `for l in clnt.labels` raises TypeError when `labels` is `None`. -/
def groupLval (group : Option String) (labels : Option (List String)) :
    Except String (List String) :=
  match group with
  | none => .ok []
  | some g =>
    if g = "" then .ok []
    else
      match labels with
      | none => .error "TypeError"
      | some ls => .ok (labelLval g ls)

/-- The backups loop of `Client.collect` (client.py lines 125-133) for one
client: the `(number, timestamp)` samples added for `current`-flagged backups,
and the final `has_working` flag.  Note the `elif`: a backup whose flags hold
`current` is never tested for `working`. -/
def collectClient (backups : List BackupInfo) : List (Int × Int) × Bool :=
  backups.foldl
    (fun st b =>
      if "current" ∈ b.flags then (st.1 ++ [(b.number, b.timestamp)], st.2)
      else if "working" ∈ b.flags then (st.1, true)
      else st)
    ([], false)

/- ### Concrete snapshot data from tests/test_parser.py -/

def backupBurp : Json :=
  .obj [("number", .num 4), ("timestamp", .num 1567146136),
        ("flags", .arr [.str "current", .str "manifest"]),
        ("logs", .obj [("list", .arr [.str "backup", .str "backup_stats"])])]

def entryAsdf : Json :=
  .obj [("name", .str "asdf"), ("labels", .arr [.str "label1", .str "label2"]),
        ("run_status", .str "idle"), ("protocol", .num 1), ("backups", .arr [])]

def entryBurp : Json :=
  .obj [("name", .str "burp"), ("labels", .arr [.str "team=cs", .str "test"]),
        ("run_status", .str "idle"), ("protocol", .num 1),
        ("backups", .arr [backupBurp])]

def entryTestclient : Json :=
  .obj [("name", .str "testclient"), ("run_status", .str "idle"),
        ("protocol", .num 1), ("backups", .arr [])]

/-- The `data_3c` snapshot of tests/test_parser.py. -/
def msg3c : Json := .obj [("clients", .arr [entryAsdf, entryBurp, entryTestclient])]

/-- The `data_2c` snapshot of tests/test_parser.py. -/
def msg2c : Json := .obj [("clients", .arr [entryAsdf, entryBurp])]

def infoAsdf : ClientInfo := ⟨"asdf", some ["label1", "label2"], "idle", 1, []⟩

def infoBurp : ClientInfo :=
  ⟨"burp", some ["team=cs", "test"], "idle", 1,
   [⟨4, 1567146136, ["current", "manifest"],
     some [("list", ["backup", "backup_stats"])]⟩]⟩

def infoTestclient : ClientInfo := ⟨"testclient", none, "idle", 1, []⟩

/-- An entry missing the required `name` field: pydantic v1 rejects it with a
`ValidationError` (a missing required field fails regardless of its lax
coercions). -/
def entryNoName : Json :=
  .obj [("run_status", .str "idle"), ("protocol", .num 1),
        ("backups", .arr [])]

/-- A snapshot whose `clients` array holds a bare string next to a valid
entry: `ClientInfo(**'nope')` raises TypeError. -/
def msgBadBatch : Json := .obj [("clients", .arr [.str "nope", entryAsdf])]

/-- True when `ClientInfo(**entry)` fails (either way). -/
def isInvalidEntry (e : Json) : Bool :=
  match mkClientInfo e with
  | .error _ => true
  | .ok _ => false

/- ### Hex round-trip lemmas -/

theorem hexVal_hexDigitChar (d : Nat) (hd : d < 16) :
    hexVal (hexDigitChar d) = some d := by
  interval_cases d <;> decide

theorem parseHexGo_append (xs ys : List Char) (acc : Nat) :
    parseHexGo acc (xs ++ ys) =
      match parseHexGo acc xs with
      | some a => parseHexGo a ys
      | none => none := by
  induction xs generalizing acc with
  | nil => rfl
  | cons c cs ih =>
    simp only [List.cons_append, parseHexGo]
    cases hexVal c with
    | none => rfl
    | some v => exact ih (acc * 16 + v)

theorem parseHexGo_natToHexAux (fuel : Nat) :
    ∀ n acc, n < fuel →
      parseHexGo acc (natToHexAux fuel n) =
        some (acc * 16 ^ (natToHexAux fuel n).length + n) := by
  induction fuel with
  | zero => intro n acc h; omega
  | succ fuel ih =>
    intro n acc h
    by_cases h16 : n < 16
    · simp only [natToHexAux, if_pos h16, parseHexGo, hexVal_hexDigitChar n h16,
        List.length_cons, List.length_nil]
      norm_num
    · have hdiv : n / 16 < n := Nat.div_lt_self (by omega) (by omega)
      have hfuel : n / 16 < fuel := by omega
      simp only [natToHexAux, if_neg h16, parseHexGo_append, ih (n / 16) acc hfuel]
      simp only [parseHexGo, hexVal_hexDigitChar (n % 16) (Nat.mod_lt n (by omega)),
        List.length_append, List.length_cons, List.length_nil]
      have hqr : 16 * (n / 16) + n % 16 = n := Nat.div_add_mod n 16
      rw [pow_succ]
      generalize 16 ^ (natToHexAux fuel (n / 16)).length = k
      congr 1
      have : (acc * k + n / 16) * 16 + n % 16 = acc * k * 16 + (16 * (n / 16) + n % 16) := by
        ring
      rw [this, hqr, Nat.mul_assoc]

theorem natToHexAux_ne_nil (fuel n : Nat) (h : n < fuel) :
    natToHexAux fuel n ≠ [] := by
  cases fuel with
  | zero => omega
  | succ fuel =>
    simp only [natToHexAux]
    by_cases h16 : n < 16 <;> simp [h16]

theorem parseHexGo_zeros (k : Nat) (ds : List Char) :
    parseHexGo 0 (List.replicate k '0' ++ ds) = parseHexGo 0 ds := by
  induction k with
  | zero => rfl
  | succ k ih => simpa [List.replicate_succ, parseHexGo, hexVal] using ih

/-- The decoder inverts the encoder's length field: `int('%04X' % n, 16) = n`. -/
theorem parseHex_hex4 (n : Nat) : parseHex (hex4 n) = some n := by
  have hne : natToHex n ≠ [] := natToHexAux_ne_nil (n + 1) n (by omega)
  have hne2 : hex4 n ≠ [] := by
    simp only [hex4]
    intro h
    exact hne (List.append_eq_nil.mp h).2
  rw [parseHex, if_neg hne2, hex4, parseHexGo_zeros]
  have h2 := parseHexGo_natToHexAux (n + 1) n 0 (by omega)
  simpa [natToHex] using h2

theorem natToHexAux_length_le (fuel : Nat) :
    ∀ k n, n < fuel → n < 16 ^ (k + 1) → (natToHexAux fuel n).length ≤ k + 1 := by
  induction fuel with
  | zero => intro k n h; omega
  | succ fuel ih =>
    intro k n h hk
    by_cases h16 : n < 16
    · simp [natToHexAux, if_pos h16]
    · cases k with
      | zero => simp at hk; omega
      | succ k =>
        have hdiv : n / 16 < n := Nat.div_lt_self (by omega) (by omega)
        have hfuel : n / 16 < fuel := by omega
        have hk2 : n / 16 < 16 ^ (k + 1) := by
          rw [Nat.div_lt_iff_lt_mul (by omega)]
          calc n < 16 ^ (k + 1 + 1) := hk
          _ = 16 ^ (k + 1) * 16 := by rw [pow_succ]
        have := ih k (n / 16) hfuel hk2
        simp only [natToHexAux, if_neg h16, List.length_append, List.length_cons,
          List.length_nil]
        omega

/-- Length fields within the protocol bound occupy exactly four characters. -/
theorem hex4_length (n : Nat) (h : n < 65536) : (hex4 n).length = 4 := by
  have hle : (natToHex n).length ≤ 4 := by
    have : (65536 : Nat) = 16 ^ (3 + 1) := by norm_num
    exact natToHexAux_length_le (n + 1) 3 n (by omega) (this ▸ h)
  simp only [hex4, List.length_append, List.length_replicate]
  omega

/-- Decoding an encoded frame: the decoder accepts it as exactly one frame,
but the payload slice `buf[5:mlen+5]` includes the trailing NUL byte. -/
theorem handle_data_wireFrame (c : Char) (p : List Char) (hc : c = 'c' ∨ c = 'w')
    (hlen : p.length + 1 ≤ 0xFFFF) :
    handle_data (wireFrame c p) = .ok [⟨c, p ++ ['\x00']⟩] := by
  have h4 : (hex4 (p.length + 1)).length = 4 := hex4_length _ (by omega)
  have hbuf : wireFrame c p = c :: (hex4 (p.length + 1) ++ (p ++ ['\x00'])) := by
    simp [wireFrame]
  rw [hbuf]
  have htlen : (hex4 (p.length + 1) ++ (p ++ ['\x00'])).length = p.length + 5 := by
    simp only [List.length_append, List.length_cons, List.length_nil, h4]
    omega
  have hcode : ¬(c ≠ 'c' ∧ c ≠ 'w') := by
    rcases hc with rfl | rfl <;> simp
  have hsent : ¬((c :: (hex4 (p.length + 1) ++ (p ++ ['\x00']))).length = 6 ∧
      c :: (hex4 (p.length + 1) ++ (p ++ ['\x00'])) = sentinel) := by
    rintro ⟨hl, hs⟩
    have hp0 : p.length = 0 := by
      simp only [List.length_cons, htlen] at hl; omega
    have hp : p = [] := List.length_eq_zero.mp hp0
    subst hp
    have hx : hex4 (([] : List Char).length + 1) = ['0', '0', '0', '1'] := by decide
    rw [hx] at hs
    simp [sentinel] at hs
  have htake : ((c :: (hex4 (p.length + 1) ++ (p ++ ['\x00']))).drop 1).take 4 =
      hex4 (p.length + 1) := by
    simp only [List.drop_succ_cons, List.drop_zero]
    rw [← h4, List.take_left]
  have hdrop : ((c :: (hex4 (p.length + 1) ++ (p ++ ['\x00']))).drop 5).take (p.length + 1) =
      p ++ ['\x00'] := by
    have hsplit : (c :: (hex4 (p.length + 1) ++ (p ++ ['\x00']))) =
        (c :: hex4 (p.length + 1)) ++ (p ++ ['\x00']) := by simp
    rw [hsplit, List.drop_left' (by simp [h4])]
    exact List.take_of_length_le (by simp)
  simp only [handle_data]
  rw [if_neg hcode, if_neg hsent,
    if_neg (show ¬((c :: (hex4 (p.length + 1) ++ (p ++ ['\x00']))).length < 5) by
      simp only [List.length_cons, htlen]; omega),
    htake, parseHex_hex4]
  have hne : ¬((c :: (hex4 (p.length + 1) ++ (p ++ ['\x00']))).length ≠ p.length + 1 + 5) := by
    simp only [List.length_cons, htlen]; omega
  simp only [if_neg hne, hdrop]

/-- Inversion of a successful `handle_data` call: the buffer is either exactly
the sentinel (zero frames) or exactly one complete frame. -/
theorem handle_data_ok_inv (b0 : Char) (rest : List Char) (frames : List Frame)
    (h : handle_data (b0 :: rest) = .ok frames) :
    ¬(b0 ≠ 'c' ∧ b0 ≠ 'w') ∧
    ((b0 :: rest = sentinel ∧ frames = []) ∨
     (b0 :: rest ≠ sentinel ∧ 5 ≤ (b0 :: rest).length ∧
      ∃ mlen, parseHex (((b0 :: rest).drop 1).take 4) = some mlen ∧
        (b0 :: rest).length = mlen + 5 ∧
        frames = [⟨b0, ((b0 :: rest).drop 5).take mlen⟩])) := by
  simp only [handle_data] at h
  by_cases hcode : b0 ≠ 'c' ∧ b0 ≠ 'w'
  · rw [if_pos hcode] at h; exact absurd h (by simp)
  · rw [if_neg hcode] at h
    refine ⟨hcode, ?_⟩
    by_cases hsent : (b0 :: rest).length = 6 ∧ b0 :: rest = sentinel
    · rw [if_pos hsent] at h
      exact Or.inl ⟨hsent.2, by simpa using h.symm⟩
    · rw [if_neg hsent] at h
      by_cases hshort : (b0 :: rest).length < 5
      · rw [if_pos hshort] at h; exact absurd h (by simp)
      · rw [if_neg hshort] at h
        right
        refine ⟨fun hs => hsent ⟨by rw [hs]; rfl, hs⟩, by omega, ?_⟩
        cases hp : parseHex (((b0 :: rest).drop 1).take 4) with
        | none =>
          simp only [hp] at h
          exact absurd h (by simp)
        | some mlen =>
          simp only [hp] at h
          by_cases hlen : (b0 :: rest).length ≠ mlen + 5
          · rw [if_pos hlen] at h; exact absurd h (by simp)
          · rw [if_neg hlen] at h
            exact ⟨mlen, rfl, by omega, by simpa using h.symm⟩

/-- Feeding any proper non-empty prefix of a buffer that `handle_data` accepts
makes `handle_data` raise: the decoder has no partial-frame mode. -/
theorem handle_data_prefix_error (p1 p2 : List Char) (frames : List Frame)
    (hok : handle_data (p1 ++ p2) = .ok frames) (h1 : p1 ≠ []) (h2 : p2 ≠ []) :
    ∃ e, handle_data p1 = .error e := by
  obtain ⟨b0, t1, rfl⟩ := List.exists_cons_of_ne_nil h1
  obtain ⟨hcode, hmain⟩ := handle_data_ok_inv b0 (t1 ++ p2) frames hok
  have hp2 : 0 < p2.length := List.length_pos.mpr h2
  by_cases hlen5 : (b0 :: t1).length < 5
  · refine ⟨.tooShort, ?_⟩
    simp only [handle_data]
    rw [if_neg hcode,
      if_neg (show ¬((b0 :: t1).length = 6 ∧ b0 :: t1 = sentinel) by
        rintro ⟨hl, _⟩; omega),
      if_pos hlen5]
  · rcases hmain with ⟨hsent, _⟩ | ⟨_, _, mlen, hparse, hflen, _⟩
    · -- the whole buffer is the sentinel, so the prefix has exactly 5 bytes
      have hFlen : (b0 :: (t1 ++ p2)).length = 6 := by rw [hsent]; rfl
      have hp1len : (b0 :: t1).length = 5 := by
        simp only [List.length_cons, List.length_append] at hFlen hlen5 ⊢
        omega
      have hp1 : b0 :: t1 = ['c', '0', '0', '0', '1'] := by
        have h5 : b0 :: t1 = ((b0 :: t1) ++ p2).take 5 := by
          rw [← hp1len, List.take_left]
        rw [h5, List.cons_append, hsent]
        rfl
      exact ⟨.badLength, by rw [hp1]; rfl⟩
    · have hfield : ((b0 :: t1).drop 1).take 4 = ((b0 :: (t1 ++ p2)).drop 1).take 4 := by
        simp only [List.drop_succ_cons, List.drop_zero]
        rw [List.take_append_of_le_length
          (by simp only [List.length_cons] at hlen5; omega)]
      have hparse1 : parseHex (((b0 :: t1).drop 1).take 4) = some mlen := by
        rw [hfield]; exact hparse
      have hFlen : (b0 :: (t1 ++ p2)).length = (b0 :: t1).length + p2.length := by
        simp only [List.length_cons, List.length_append]
        omega
      have hlt : (b0 :: t1).length < mlen + 5 := by omega
      have hnsent1 : ¬((b0 :: t1).length = 6 ∧ b0 :: t1 = sentinel) := by
        rintro ⟨_, hs⟩
        have hone : parseHex (((b0 :: t1).drop 1).take 4) = some 1 := by
          rw [hs]; rfl
        rw [hparse1] at hone
        have : mlen = 1 := by simpa using hone
        omega
      refine ⟨.badLength, ?_⟩
      simp only [handle_data]
      rw [if_neg hcode, if_neg hnsent1, if_neg hlen5]
      simp only [hparse1]
      rw [if_pos (by omega)]

/- ### Reconciler lemmas -/

theorem containsName_iff (cur : List ClientInfo) (n : String) :
    containsName cur n = true ↔ ∃ r ∈ cur, r.name = n := by
  simp [containsName, List.any_eq_true]

theorem containsName_replaceByName (cur : List ClientInfo) (info : ClientInfo)
    (n : String) :
    containsName (replaceByName cur info) n = containsName cur n := by
  simp only [containsName, replaceByName, List.any_map]
  congr 1
  funext cl
  by_cases h : cl.name = info.name <;> simp [Function.comp, h]

theorem containsName_append_one (cur : List ClientInfo) (info : ClientInfo)
    (n : String) :
    containsName (cur ++ [info]) n = (containsName cur n || (info.name == n)) := by
  simp [containsName, List.any_append]

theorem mem_replaceByName (cur : List ClientInfo) (info r : ClientInfo)
    (h : r ∈ replaceByName cur info) :
    r = info ∨ (r ∈ cur ∧ r.name ≠ info.name) := by
  simp only [replaceByName, List.mem_map] at h
  obtain ⟨cl, hcl, heq⟩ := h
  by_cases hn : cl.name = info.name
  · rw [if_pos hn] at heq
    exact Or.inl heq.symm
  · rw [if_neg hn] at heq
    exact Or.inr ⟨heq ▸ hcl, heq ▸ hn⟩

/-- Behaviour of the entry loop on a batch free of non-object entries: it
never aborts, adds exactly one parse error per invalid entry, records the
names of the valid entries, and every surviving record either is the payload
of a valid entry of this batch or was present before and untouched by name. -/
theorem processEntries_spec (entries : List Json) :
    ∀ cur names errs,
      (∀ e ∈ entries, mkClientInfo e ≠ .error .typeError) →
      ∃ cur2 names2 errs2,
        processEntries cur names errs entries = .ok (cur2, names2, errs2) ∧
        errs2 = errs + (entries.filter isInvalidEntry).length ∧
        (∀ n, n ∈ names2 ↔
          n ∈ names ∨ ∃ e ∈ entries, ∃ info, mkClientInfo e = .ok info ∧ info.name = n) ∧
        (∀ r ∈ cur2,
          (∃ e ∈ entries, mkClientInfo e = .ok r) ∨
          (r ∈ cur ∧ ∀ e ∈ entries, ∀ info, mkClientInfo e = .ok info → info.name ≠ r.name)) ∧
        (∀ n, containsName cur2 n = true ↔
          containsName cur n = true ∨
          ∃ e ∈ entries, ∃ info, mkClientInfo e = .ok info ∧ info.name = n) := by
  induction entries with
  | nil =>
    intro cur names errs _
    refine ⟨cur, names, errs, rfl, by simp, by simp, ?_, by simp⟩
    intro r hr
    exact Or.inr ⟨hr, by simp⟩
  | cons e rest ih =>
    intro cur names errs hobj
    have hrest : ∀ e2 ∈ rest, mkClientInfo e2 ≠ .error .typeError :=
      fun e2 h2 => hobj e2 (List.mem_cons_of_mem e h2)
    cases hmk : mkClientInfo e with
    | error ve =>
      cases ve with
      | typeError => exact absurd hmk (hobj e (List.mem_cons_self e rest))
      | validationError =>
        obtain ⟨cur2, names2, errs2, hpe, herrs, hnames, hcur, hcn⟩ :=
          ih cur names (errs + 1) hrest
        have hinv : isInvalidEntry e = true := by simp [isInvalidEntry, hmk]
        have hnoinfo : ∀ info : ClientInfo, ¬ mkClientInfo e = .ok info := by
          simp [hmk]
        refine ⟨cur2, names2, errs2, ?_, ?_, ?_, ?_, ?_⟩
        · simp only [processEntries, hmk]
          exact hpe
        · rw [herrs, List.filter_cons_of_pos hinv, List.length_cons]
          omega
        · intro n
          rw [hnames n]
          constructor
          · rintro (h | ⟨e2, he2, info, hi, hn⟩)
            · exact Or.inl h
            · exact Or.inr ⟨e2, List.mem_cons_of_mem e he2, info, hi, hn⟩
          · rintro (h | ⟨e2, he2, info, hi, hn⟩)
            · exact Or.inl h
            · rcases List.mem_cons.mp he2 with rfl | he2
              · exact absurd hi (hnoinfo info)
              · exact Or.inr ⟨e2, he2, info, hi, hn⟩
        · intro r hr
          rcases hcur r hr with ⟨e2, he2, hi⟩ | ⟨hrc, hnone⟩
          · exact Or.inl ⟨e2, List.mem_cons_of_mem e he2, hi⟩
          · refine Or.inr ⟨hrc, ?_⟩
            intro e2 he2 info hi
            rcases List.mem_cons.mp he2 with rfl | he2
            · exact absurd hi (hnoinfo info)
            · exact hnone e2 he2 info hi
        · intro n
          rw [hcn n]
          constructor
          · rintro (h | ⟨e2, he2, info, hi, hn⟩)
            · exact Or.inl h
            · exact Or.inr ⟨e2, List.mem_cons_of_mem e he2, info, hi, hn⟩
          · rintro (h | ⟨e2, he2, info, hi, hn⟩)
            · exact Or.inl h
            · rcases List.mem_cons.mp he2 with rfl | he2
              · exact absurd hi (hnoinfo info)
              · exact Or.inr ⟨e2, he2, info, hi, hn⟩
    | ok info =>
      obtain ⟨cur2, names2, errs2, hpe, herrs, hnames, hcur, hcn⟩ :=
        ih (if containsName cur info.name then replaceByName cur info else cur ++ [info])
          (if info.name ∈ names then names else names ++ [info.name]) errs hrest
      have hinv : isInvalidEntry e = false := by simp [isInvalidEntry, hmk]
      have honly : ∀ info2 : ClientInfo, mkClientInfo e = .ok info2 → info2 = info := by
        intro info2 hi
        rw [hmk] at hi
        exact (Except.ok.inj hi).symm
      have hns : ∀ n, (n ∈ if info.name ∈ names then names else names ++ [info.name]) ↔
          (n ∈ names ∨ n = info.name) := by
        intro n
        by_cases h : info.name ∈ names
        · rw [if_pos h]
          constructor
          · exact Or.inl
          · rintro (hn | rfl)
            · exact hn
            · exact h
        · rw [if_neg h]
          simp [List.mem_append]
      have hcn1 : ∀ n,
          (containsName (if containsName cur info.name then replaceByName cur info
            else cur ++ [info]) n = true) ↔
          (containsName cur n = true ∨ info.name = n) := by
        intro n
        by_cases h : containsName cur info.name
        · rw [if_pos h, containsName_replaceByName]
          constructor
          · exact Or.inl
          · rintro (hn | rfl)
            · exact hn
            · exact h
        · rw [if_neg h, containsName_append_one]
          simp [beq_iff_eq]
      refine ⟨cur2, names2, errs2, ?_, ?_, ?_, ?_, ?_⟩
      · simp only [processEntries, hmk]
        exact hpe
      · rw [herrs, List.filter_cons_of_neg (by simp [hinv])]
      · intro n
        rw [hnames n]
        constructor
        · rintro (h | ⟨e2, he2, info2, hi, hn⟩)
          · rcases (hns n).mp h with hn | rfl
            · exact Or.inl hn
            · exact Or.inr ⟨e, List.mem_cons_self e rest, info, hmk, rfl⟩
          · exact Or.inr ⟨e2, List.mem_cons_of_mem e he2, info2, hi, hn⟩
        · rintro (h | ⟨e2, he2, info2, hi, hn⟩)
          · exact Or.inl ((hns n).mpr (Or.inl h))
          · rcases List.mem_cons.mp he2 with rfl | he2
            · exact Or.inl ((hns n).mpr (Or.inr (by rw [← hn, honly info2 hi])))
            · exact Or.inr ⟨e2, he2, info2, hi, hn⟩
      · intro r hr
        rcases hcur r hr with ⟨e2, he2, hi⟩ | ⟨hrc, hnone⟩
        · exact Or.inl ⟨e2, List.mem_cons_of_mem e he2, hi⟩
        · by_cases h : containsName cur info.name
          · rw [if_pos h] at hrc
            rcases mem_replaceByName cur info r hrc with rfl | ⟨hrcur, hrne⟩
            · exact Or.inl ⟨e, List.mem_cons_self e rest, hmk⟩
            · refine Or.inr ⟨hrcur, ?_⟩
              intro e2 he2 info2 hi
              rcases List.mem_cons.mp he2 with rfl | he2
              · rw [honly info2 hi]
                exact fun hh => hrne hh.symm
              · exact hnone e2 he2 info2 hi
          · rw [if_neg h] at hrc
            rcases List.mem_append.mp hrc with hrcur | hrinfo
            · refine Or.inr ⟨hrcur, ?_⟩
              intro e2 he2 info2 hi
              rcases List.mem_cons.mp he2 with rfl | he2
              · rw [honly info2 hi]
                intro hh
                exact h ((containsName_iff cur info.name).mpr ⟨r, hrcur, hh.symm⟩)
              · exact hnone e2 he2 info2 hi
            · rcases List.mem_singleton.mp hrinfo with rfl
              exact Or.inl ⟨e, List.mem_cons_self e rest, hmk⟩
      · intro n
        rw [hcn n]
        constructor
        · rintro (h | ⟨e2, he2, info2, hi, hn⟩)
          · rcases (hcn1 n).mp h with hn | rfl
            · exact Or.inl hn
            · exact Or.inr ⟨e, List.mem_cons_self e rest, info, hmk, rfl⟩
          · exact Or.inr ⟨e2, List.mem_cons_of_mem e he2, info2, hi, hn⟩
        · rintro (h | ⟨e2, he2, info2, hi, hn⟩)
          · exact Or.inl ((hcn1 n).mpr (Or.inl h))
          · rcases List.mem_cons.mp he2 with rfl | he2
            · exact Or.inl ((hcn1 n).mpr (Or.inr (by rw [← hn, honly info2 hi])))
            · exact Or.inr ⟨e2, he2, info2, hi, hn⟩

/- ### Collector lemmas -/

theorem collectClient_fold (bs : List BackupInfo) :
    ∀ (l : List (Int × Int)) (w : Bool),
      bs.foldl
        (fun st b =>
          if "current" ∈ b.flags then (st.1 ++ [(b.number, b.timestamp)], st.2)
          else if "working" ∈ b.flags then (st.1, true)
          else st) (l, w) =
      (l ++ (bs.filter (fun b => decide ("current" ∈ b.flags))).map
          (fun b => (b.number, b.timestamp)),
       w || bs.any (fun b => decide ("working" ∈ b.flags) &&
          !(decide ("current" ∈ b.flags)))) := by
  induction bs with
  | nil => intro l w; simp
  | cons b bs ih =>
    intro l w
    by_cases hc : "current" ∈ b.flags
    · simp [List.foldl_cons, hc, ih, List.filter_cons, List.append_assoc]
    · by_cases hw : "working" ∈ b.flags
      · simp [List.foldl_cons, hc, hw, ih, List.filter_cons]
      · simp [List.foldl_cons, hc, hw, ih, List.filter_cons]

theorem labelLval_find (g : String) (ls : List String) :
    labelLval g ls =
      match ls.find? (fun l => pyStarts l (g ++ "=")) with
      | none => [LABEL_DEFAULT]
      | some l => [afterFirstEq l] := by
  induction ls with
  | nil => rfl
  | cons l rest ih =>
    cases hp : pyStarts l (g ++ "=") with
    | true => simp [labelLval, hp, List.find?_cons_of_pos _ hp]
    | false =>
      rw [List.find?_cons_of_neg _ (by simp [hp])]
      simpa [labelLval, hp] using ih

theorem listContains_iff (l : List String) (a : String) :
    l.contains a = true ↔ a ∈ l := by
  simp [List.contains, List.elem_iff]

/- ### Claim theorems -/

/-- C1 (counterexample): the claim says a buffer holding only a proper prefix
of a frame is a partial frame, not an error.  For the complete frame
`c0002a\0` (accepted by the decoder), feeding the 2-byte prefix `c0` in one
short read raises `Exception('Message too short')` instead of returning zero
frames. -/
theorem c1_counterexample :
    handle_data (wireFrame 'c' ['a']) = .ok [⟨'c', ['a', '\x00']⟩] ∧
    (clientRead ⟨[], true, false⟩ ['c', '0'] 2048).2 = .error .tooShort := by decide

/-- C1 (amended): for every complete wire frame (shorter than the read buffer
size) and every split into two non-empty parts fed across two short reads, the
first read raises an error (the decoder requires a complete frame) but keeps
the bytes in the receive buffer, and the second read then yields exactly the
same decoded frames as feeding the whole sequence at once. -/
theorem c1_split_read (F p1 p2 : List Char) (frames : List Frame) (conn inF : Bool)
    (bufsize : Nat) (hok : handle_data F = .ok frames) (hsplit : p1 ++ p2 = F)
    (h1 : p1 ≠ []) (h2 : p2 ≠ []) (hb : F.length < bufsize) :
    clientRead ⟨[], conn, inF⟩ F bufsize = (⟨[], conn, false⟩, .ok frames) ∧
    (∃ e, clientRead ⟨[], conn, inF⟩ p1 bufsize = (⟨p1, conn, inF⟩, .error e)) ∧
    clientRead ⟨p1, conn, inF⟩ p2 bufsize = (⟨[], conn, false⟩, .ok frames) := by
  subst hsplit
  have hp1 : 0 < p1.length := List.length_pos.mpr h1
  have hp2 : 0 < p2.length := List.length_pos.mpr h2
  have hlenF : (p1 ++ p2).length = p1.length + p2.length := List.length_append p1 p2
  obtain ⟨e, he⟩ := handle_data_prefix_error p1 p2 frames hok h1 h2
  refine ⟨?_, ⟨e, ?_⟩, ?_⟩
  · simp only [clientRead]
    rw [if_neg (by omega), if_pos hb]
    simp only [List.nil_append, hok]
  · simp only [clientRead]
    rw [if_neg (by omega), if_pos (by omega)]
    simp only [List.nil_append, he]
  · simp only [clientRead]
    rw [if_neg (by omega), if_pos (by omega)]
    simp only [hok]

/-- Witness for C1 at the frame `c0003ab\0` split after four bytes. -/
theorem c1_split_read_witness :
    clientRead ⟨[], true, true⟩ ['c', '0', '0', '0', '3', 'a', 'b', '\x00'] 2048 =
      (⟨[], true, false⟩, .ok [⟨'c', ['a', 'b', '\x00']⟩]) ∧
    (∃ e, clientRead ⟨[], true, true⟩ ['c', '0', '0', '0'] 2048 =
      (⟨['c', '0', '0', '0'], true, true⟩, .error e)) ∧
    clientRead ⟨['c', '0', '0', '0'], true, true⟩ ['3', 'a', 'b', '\x00'] 2048 =
      (⟨[], true, false⟩, .ok [⟨'c', ['a', 'b', '\x00']⟩]) :=
  c1_split_read ['c', '0', '0', '0', '3', 'a', 'b', '\x00'] ['c', '0', '0', '0']
    ['3', 'a', 'b', '\x00'] [⟨'c', ['a', 'b', '\x00']⟩] true true 2048
    (by decide) (by decide) (by decide) (by decide) (by decide)

/-- C2 (counterexample): decoding the encoding of payload `ab` yields payload
`ab\0`, not `ab` — the decoder's slice `buf[5:mlen+5]` includes the reserved
terminator byte, so the round trip does not return the original payload. -/
theorem c2_counterexample :
    handle_data (wireFrame 'c' ['a', 'b']) = .ok [⟨'c', ['a', 'b', '\x00']⟩] ∧
    (['a', 'b', '\x00'] : List Char) ≠ ['a', 'b'] := by decide

/-- C2 (amended): for every command byte in `{c, w}` and payload with
`len(p) + 1 ≤ 0xFFFF`, decoding the encoded frame yields exactly one frame
whose type is the command byte and whose payload is the original payload with
the NUL terminator appended. -/
theorem c2_roundtrip (c : Char) (p : List Char) (hc : c = 'c' ∨ c = 'w')
    (hlen : p.length + 1 ≤ 0xFFFF) :
    handle_data (wireFrame c p) = .ok [⟨c, p ++ ['\x00']⟩] :=
  handle_data_wireFrame c p hc hlen

/-- Witness for C2 at command `w`, payload `hi`. -/
theorem c2_roundtrip_witness :
    (('w' : Char) = 'c' ∨ ('w' : Char) = 'w') ∧
    (['h', 'i'] : List Char).length + 1 ≤ 0xFFFF ∧
    handle_data (wireFrame 'w' ['h', 'i']) = .ok [⟨'w', ['h', 'i', '\x00']⟩] :=
  ⟨by decide, by decide, c2_roundtrip 'w' ['h', 'i'] (by decide) (by decide)⟩

/-- C3: from an open socket in the not-connected state, against the scripted
replies `whoareyou`, `okpassword`, `ok`, `nocsr ok`, `extra_comms_begin ok`
(holding no capability token), `extra_comms_end ok` and two arbitrary further
reads, `connect` sends exactly the seven handshake commands (no
`counters_json ok`, `uname=Linux` or `msg`), consumes exactly the two
discarding reads after `j:pretty-print-off` (no reply is left over), and ends
connected. -/
theorem c3_handshake (version cname password r1 r2 : String) :
    connect true false version cname password
      ["whoareyou", "okpassword", "ok", "nocsr ok", "extra_comms_begin ok",
       "extra_comms_end ok", r1, r2] =
    .ok ⟨[("c", "hello:" ++ version), ("c", cname), ("c", password), ("c", "nocsr"),
          ("c", "extra_comms_begin"), ("c", "extra_comms_end"),
          ("c", "j:pretty-print-off")], true, []⟩ := rfl

/-- C4: applying the three-client snapshot of the test suite to an empty table
yields the three records with zero parse errors and zero removals; applying
the two-client snapshot to that table yields exactly the two wholesale-updated
records, removing exactly `testclient`. -/
theorem c4_reconciler :
    parse_message [] 0 msg3c = .ok ([infoAsdf, infoBurp, infoTestclient], 0) ∧
    removedBetween [] [infoAsdf, infoBurp, infoTestclient] = [] ∧
    parse_message [infoAsdf, infoBurp, infoTestclient] 0 msg2c =
      .ok ([infoAsdf, infoBurp], 0) ∧
    removedBetween [infoAsdf, infoBurp, infoTestclient] [infoAsdf, infoBurp] =
      ["testclient"] ∧
    mkClientInfo entryAsdf = .ok infoAsdf ∧
    mkClientInfo entryBurp = .ok infoBurp ∧
    mkClientInfo entryTestclient = .ok infoTestclient := by decide

/-- C5 (code behaviour at the failing input): when the connection is up, the
refresh interval has elapsed and no request is in flight, `refresh` sends the
snapshot request `c:` and updates the last-query timestamp, but the resulting
state's in-flight flag is still `false` — the code never sets it; the guard
against overlapping requests (skip when in flight) is present but can never
trigger. -/
theorem c5_refresh_behaviour (s : RefreshState) (now interval : Int)
    (hc : s.connected = true) (hf : s.inFlight = false)
    (ht : s.tsLastQuery < now - interval) :
    refresh s now interval = ({ s with tsLastQuery := now }, [("c", "c:")]) ∧
    (refresh s now interval).1.inFlight = false ∧
    ∀ s2 : RefreshState, s2.inFlight = true → (refresh s2 now interval).2 = [] := by
  have h1 : refresh s now interval = ({ s with tsLastQuery := now }, [("c", "c:")]) := by
    simp [refresh, hc, hf, ht]
  refine ⟨h1, by rw [h1]; exact hf, ?_⟩
  intro s2 h2
  simp only [refresh]
  by_cases hcon : s2.connected ∧ s2.tsLastQuery < now - interval
  · rw [if_pos hcon, if_pos h2]
  · rw [if_neg hcon]

/-- Witness for C5 at a connected, idle state with an elapsed interval. -/
theorem c5_refresh_behaviour_witness :
    refresh ⟨true, false, 0⟩ 100 10 = (⟨true, false, 100⟩, [("c", "c:")]) ∧
    (refresh ⟨true, false, 0⟩ 100 10).1.inFlight = false :=
  ⟨(c5_refresh_behaviour ⟨true, false, 0⟩ 100 10 rfl rfl (by decide)).1,
   (c5_refresh_behaviour ⟨true, false, 0⟩ 100 10 rfl rfl (by decide)).2.1⟩

/-- C6 (counterexample): a client whose single backup carries both `current`
and `working` has a backup with the `working` flag, yet the exported
in-progress indicator is 0 — the `elif` never tests a `current` backup for
`working`. -/
theorem c6_counterexample :
    (collectClient [⟨1, 100, ["current", "working"], none⟩]).2 = false ∧
    "working" ∈ (BackupInfo.mk 1 100 ["current", "working"] none).flags := by decide

/-- C6 (amended): the exported in-progress indicator is 1 iff some backup
carries `working` and not `current` (the `current` branch takes precedence);
the current-number/timestamp samples are emitted exactly for the
`current`-flagged backups; in particular one backup flagged `working` and none
flagged `current` gives in-progress = 1 with no current-number or timestamp
sample. -/
theorem c6_in_progress (bs : List BackupInfo) :
    (collectClient bs).2 =
      bs.any (fun b => decide ("working" ∈ b.flags) && !(decide ("current" ∈ b.flags))) ∧
    (collectClient bs).1 =
      (bs.filter (fun b => decide ("current" ∈ b.flags))).map
        (fun b => (b.number, b.timestamp)) ∧
    ∀ n t : Int, collectClient [⟨n, t, ["working"], none⟩] = ([], true) := by
  refine ⟨?_, ?_, ?_⟩
  · rw [collectClient, collectClient_fold]
    simp
  · rw [collectClient, collectClient_fold]
    simp
  · intro n t
    simp [collectClient,
      (by decide : ¬("current" ∈ (["working"] : List String))),
      (by decide : ("working" ∈ (["working"] : List String)))]

/-- C7 (counterexample): a `clients` array holding a bare string next to a
valid entry: the string entry fails validation, yet the whole batch aborts
with the uncaught TypeError from `ClientInfo(**entry)` — the valid sibling is
not applied and no parse error is counted. -/
theorem c7_counterexample :
    isInvalidEntry (Json.str "nope") = true ∧
    mkClientInfo entryAsdf = .ok infoAsdf ∧
    parse_message [] 0 msgBadBatch = .error .typeError := by decide

/-- C7 (amended): for a snapshot whose `clients` array holds only JSON-object
entries, the call never aborts; each entry failing validation adds exactly 1
to the parse-error counter (which never decreases) and contributes no record,
every sibling entry that validates is inserted or replaces by name, and every
record of the resulting table is the wholesale payload of some valid entry of
the batch.  A non-object entry, by contrast, aborts the batch. -/
theorem c7_batch (cur : List ClientInfo) (errs : Nat) (entries : List Json)
    (hobj : ∀ e ∈ entries, mkClientInfo e ≠ .error .typeError) :
    ∃ tbl errs2,
      parse_message cur errs (Json.obj [("clients", Json.arr entries)]) =
        .ok (tbl, errs2) ∧
      errs2 = errs + (entries.filter isInvalidEntry).length ∧
      errs ≤ errs2 ∧
      (∀ r ∈ tbl, ∃ e ∈ entries, mkClientInfo e = .ok r) ∧
      (∀ e ∈ entries, ∀ info, mkClientInfo e = .ok info →
        ∃ r ∈ tbl, r.name = info.name) := by
  obtain ⟨cur2, names2, errs2, hpe, herrs, hnames, hcur, hcn⟩ :=
    processEntries_spec entries cur [] errs hobj
  have hlook : (Json.obj [("clients", Json.arr entries)]).lookup "clients" =
      some (Json.arr entries) := rfl
  refine ⟨cur2.filter (fun x => names2.contains x.name), errs2, ?_, herrs,
    by omega, ?_, ?_⟩
  · simp only [parse_message, hlook, hpe]
  · intro r hr
    rw [List.mem_filter] at hr
    obtain ⟨hr2, hrn⟩ := hr
    rcases hcur r hr2 with ⟨e, he, hi⟩ | ⟨_, hnone⟩
    · exact ⟨e, he, hi⟩
    · have hmem : r.name ∈ names2 := (listContains_iff names2 r.name).mp hrn
      rcases (hnames r.name).mp hmem with h | ⟨e, he, info, hi, hn⟩
      · simp at h
      · exact absurd hn (hnone e he info hi)
  · intro e he info hi
    have hmem : info.name ∈ names2 :=
      (hnames info.name).mpr (Or.inr ⟨e, he, info, hi, rfl⟩)
    have hc2 : containsName cur2 info.name = true :=
      (hcn info.name).mpr (Or.inr ⟨e, he, info, hi, rfl⟩)
    obtain ⟨r, hr, hrn⟩ := (containsName_iff cur2 info.name).mp hc2
    refine ⟨r, ?_, hrn⟩
    rw [List.mem_filter]
    exact ⟨hr, (listContains_iff names2 r.name).mpr (hrn ▸ hmem)⟩

/-- Witness for C7 on a batch of one valid and one invalid object entry. -/
theorem c7_batch_witness :
    (∀ e ∈ [entryAsdf, entryNoName], mkClientInfo e ≠ .error .typeError) ∧
    (∃ tbl errs2,
      parse_message [] 0 (Json.obj [("clients", Json.arr [entryAsdf, entryNoName])]) =
        .ok (tbl, errs2) ∧
      errs2 = 0 + ([entryAsdf, entryNoName].filter isInvalidEntry).length ∧
      0 ≤ errs2 ∧
      (∀ r ∈ tbl, ∃ e ∈ [entryAsdf, entryNoName], mkClientInfo e = .ok r) ∧
      (∀ e ∈ [entryAsdf, entryNoName], ∀ info, mkClientInfo e = .ok info →
        ∃ r ∈ tbl, r.name = info.name)) :=
  ⟨by decide, c7_batch [] 0 [entryAsdf, entryNoName] (by decide)⟩

/-- C8: a received buffer that is exactly the 6-byte sentinel `c0001\n` is
consumed as zero frames, without error, and a read delivering it leaves a
clean buffer and dispatches nothing to the JSON parser. -/
theorem c8_sentinel :
    handle_data sentinel = .ok [] ∧
    clientRead ⟨[], true, false⟩ sentinel 2048 = (⟨[], true, false⟩, .ok []) := by
  decide

/-- C9 (counterexample): a payload of length 0xFFFF (so `len + 1 > 0xFFFF`) is
written without any error — the encoder has no size check at all, it just
formats a five-digit length field. -/
theorem c9_counterexample :
    (List.replicate 65535 'a').length + 1 > 0xFFFF ∧
    write_command true ['c'] (List.replicate 65535 'a') =
      .ok (wireFrame 'c' (List.replicate 65535 'a')) := by
  refine ⟨?_, rfl⟩
  rw [List.length_replicate]
  omega

/-- C9 (amended): with an open socket, a single-character command always
writes the frame (no payload-size check exists); a command longer than one
character fails with `IOError('Command must be a single character')`; the
empty command fails with the TypeError of `'%c' % ''`. -/
theorem c9_encoder (c : Char) (cmd : List Char) (data : List Char) :
    write_command true [c] data = .ok (wireFrame c data) ∧
    (cmd.length > 1 → write_command true cmd data = .error .longCmd) ∧
    write_command true [] data = .error .typeError := by
  refine ⟨rfl, ?_, rfl⟩
  intro h
  simp [write_command, h]

/-- Witness for C9 at a two-character command and a one-character command. -/
theorem c9_encoder_witness :
    (['c', 'w'] : List Char).length > 1 ∧
    write_command true ['c', 'w'] ['a'] = .error .longCmd ∧
    write_command true ['c'] ['a'] = .ok (wireFrame 'c' ['a']) :=
  ⟨by decide, (c9_encoder 'c' ['c', 'w'] ['a']).2.1 (by decide),
   (c9_encoder 'c' ['c', 'w'] ['a']).1⟩

/-- C10 (counterexample): a schema-valid client record may carry `labels =
None` (the test suite's `testclient` does); with a group label configured,
`collect` then raises TypeError on `for l in clnt.labels` instead of exporting
the `--unknown--` default. -/
theorem c10_counterexample :
    mkClientInfo entryTestclient = .ok infoTestclient ∧
    infoTestclient.labels = none ∧
    groupLval (some "team") none = .error "TypeError" := by decide

/-- C10 (amended): with a configured (non-empty) group label and a present
label list, the group value is `--unknown--` when no label starts with
`<label>=`, and otherwise the text after the first `'='` of the first matching
label in list order. -/
theorem c10_group_label (g : String) (ls : List String) (hg : g ≠ "") :
    groupLval (some g) (some ls) =
      .ok (match ls.find? (fun l => pyStarts l (g ++ "=")) with
           | none => [LABEL_DEFAULT]
           | some l => [afterFirstEq l]) := by
  simp only [groupLval, if_neg hg]
  rw [labelLval_find]

/-- Witness for C10 at group `team` over a matching and a non-matching label. -/
theorem c10_group_label_witness :
    ("team" : String) ≠ "" ∧
    groupLval (some "team") (some ["x", "team=cs", "team=zz"]) = .ok ["cs"] :=
  ⟨by decide,
   (c10_group_label "team" ["x", "team=cs", "team=zz"] (by decide)).trans (by decide)⟩

end Burp
